import Mathlib

/-!
Shallow embedding of the FindMyProject scraping core (TypeScript sources:
`src/scraper/utils.ts`, `src/scraper/ScraperOrchestrator.ts`,
`src/scraper/types.ts`, the `BaseAdapter` and `FreelancerAdapter` classes)
together with proofs about the behaviour its specification claims.

JavaScript strings are modelled as Lean `String` (worked on as `List Char`),
JavaScript arrays as `List`, thrown exceptions as `Except`, and `undefined` /
optional values as `Option`.  All definitions are executable and reduce in the
kernel (structural or fuel-bounded recursion only).
-/

set_option linter.unnecessarySeqFocus false
set_option linter.unnecessarySimpa false

namespace FindMyProject

/-! ### JavaScript string primitives -/

/-- JavaScript `\s` whitespace class (the characters relevant here). -/
def isWs (c : Char) : Bool :=
  c = ' ' || c = '\t' || c = '\n' || c = '\r' || c = '\x0b' || c = '\x0c'

/-- One step of collapsing whitespace runs: `text.replace(/\s+/g, " ")`.
`prevWs` records whether the previous character was part of a whitespace run. -/
def collapseWsAux : Bool → List Char → List Char
  | _, [] => []
  | prevWs, c :: rest =>
    if isWs c then
      if prevWs then collapseWsAux true rest
      else ' ' :: collapseWsAux true rest
    else c :: collapseWsAux false rest

/-- Drop leading whitespace (one side of JavaScript `trim()`). -/
def dropWsLeft (l : List Char) : List Char := l.dropWhile (fun c => isWs c)

/-- JavaScript `trim()` on a character list. -/
def trimChars (l : List Char) : List Char :=
  ((dropWsLeft l).reverse.dropWhile (fun c => isWs c)).reverse

/-- `cleanText` from `src/scraper/utils.ts`:
`text.replace(/\s+/g, " ").replace(/\n/g, " ").trim()` (the second replace is
a no-op because the first one already removed every newline). -/
def cleanText (s : String) : String :=
  ⟨trimChars (collapseWsAux false s.data)⟩

/-- JavaScript `s.split(sep)` for a one-character separator: keeps empty
pieces, and splitting the empty string yields one empty piece. -/
def splitOnChar (sep : Char) : List Char → List (List Char)
  | [] => [[]]
  | c :: rest =>
    match splitOnChar sep rest with
    | [] => [[c]]
    | h :: t => if c = sep then [] :: h :: t else (c :: h) :: t

/-- JavaScript `haystack.includes(needle)` (substring containment). -/
def strIncludes (s sub : String) : Bool := decide (sub.data <:+: s.data)

/-- JavaScript `s || d` for strings: the only falsy string is `""`. -/
def jsOr (s d : String) : String := if s = "" then d else s

/-- JavaScript truthiness of an optional string (`undefined` and `""` are
falsy). -/
def jsTruthyS : Option String → Bool
  | none => false
  | some s => s ≠ ""

/-- JavaScript truthiness of an optional number (`undefined` and `0` are
falsy). -/
def jsTruthyN : Option Nat → Bool
  | none => false
  | some n => n ≠ 0

/-- JavaScript `s.toLowerCase()` (ASCII, which is all the code compares). -/
def jsToLower (s : String) : String := ⟨s.data.map Char.toLower⟩

/-- JavaScript `s.trim()`. -/
def jsTrim (s : String) : String := ⟨trimChars s.data⟩

/-! ### Data model (`src/scraper/types.ts`) -/

/-- `JobData` from `types.ts`: one scraped listing. -/
structure JobData where
  title : String
  description : String
  budget : String
  hourlyRate : String
  skills : List String
  postedTime : String
  clientInfo : String
  jobUrl : String
  jobType : String
  duration : String
  experienceLevel : String
  platform : String
deriving Repr, DecidableEq

/-- `SearchFilters` from `types.ts`; every field optional. -/
structure SearchFilters where
  keyword : Option String := none
  category : Option String := none
  tags : Option (List String) := none
  minBudget : Option Nat := none
  maxBudget : Option Nat := none
  jobType : Option String := none
  experienceLevel : Option String := none
  location : Option String := none
  sortBy : Option String := none
deriving Repr, DecidableEq

/-- `ScrapingResult` from `types.ts`.  The JavaScript `Date` timestamp is
modelled as a `Nat` supplied by the caller. -/
structure ScrapingResult where
  jobs : List JobData
  totalFound : Nat
  platform : String
  searchQuery : String
  timestamp : Nat
  success : Bool
  errors : Option (List String) := none
deriving Repr, DecidableEq

/-! ### CSV serialization (`src/scraper/utils.ts`) -/

/-- `CsvJobRecord` from `types.ts`: the flattened, all-string row. -/
structure CsvJobRecord where
  title : String
  description : String
  budget : String
  hourlyRate : String
  skills : String
  postedTime : String
  clientInfo : String
  jobUrl : String
  jobType : String
  duration : String
  experienceLevel : String
  platform : String
deriving Repr, DecidableEq

/-- The description rewrite inside `jobDataToCsvRecord`:
`description.replace(/\n/g, " ").replace(/,/g, ";")`. -/
def csvDescription (s : String) : String :=
  ⟨(s.data.map (fun c => if c = '\n' then ' ' else c)).map
      (fun c => if c = ',' then ';' else c)⟩

/-- `jobDataToCsvRecord` from `utils.ts`. -/
def jobDataToCsvRecord (job : JobData) : CsvJobRecord :=
  { title := job.title
    description := csvDescription job.description
    budget := job.budget
    hourlyRate := job.hourlyRate
    skills := String.intercalate "; " job.skills
    postedTime := job.postedTime
    clientInfo := job.clientInfo
    jobUrl := job.jobUrl
    jobType := job.jobType
    duration := job.duration
    experienceLevel := job.experienceLevel
    platform := job.platform }

/-- The header list of `createCsvContent`, in source order. -/
def csvHeaders : List String :=
  ["title", "description", "budget", "hourlyRate", "skills", "postedTime",
   "clientInfo", "jobUrl", "jobType", "duration", "experienceLevel",
   "platform"]

/-- The record's values in header order (`record[header]` for each header). -/
def recordValues (r : CsvJobRecord) : List String :=
  [r.title, r.description, r.budget, r.hourlyRate, r.skills, r.postedTime,
   r.clientInfo, r.jobUrl, r.jobType, r.duration, r.experienceLevel,
   r.platform]

/-- Doubling of inner quotes: `stringValue.replace(/"/g, '""')`. -/
def doubleQuotes : List Char → List Char
  | [] => []
  | c :: rest =>
    if c = '"' then '"' :: '"' :: doubleQuotes rest else c :: doubleQuotes rest

/-- Per-field escaping in `createCsvContent` at character level: wrap in
double quotes (doubling inner quotes) when the field contains a comma, a
double quote or a newline. -/
def escapeChars (f : List Char) : List Char :=
  if f.contains ',' || f.contains '"' || f.contains '\n' then
    '"' :: doubleQuotes f ++ ['"']
  else f

/-- Per-field escaping in `createCsvContent`.  `String(value || "")` is the
identity on the string fields handled here. -/
def csvEscapeField (s : String) : String := ⟨escapeChars s.data⟩

/-- JavaScript `array.join(",")` at character level. -/
def commaJoin : List (List Char) → List Char
  | [] => []
  | [f] => f
  | f :: g :: rest => f ++ ',' :: commaJoin (g :: rest)

/-- JavaScript `array.join(",")` on strings. -/
def joinComma (fields : List String) : String := ⟨commaJoin (fields.map String.data)⟩

/-- One data row of `createCsvContent`: escaped values joined with commas. -/
def csvRow (job : JobData) : String :=
  joinComma ((recordValues (jobDataToCsvRecord job)).map csvEscapeField)

/-- `createCsvContent` from `utils.ts`: header row followed by one row per
job, joined with newlines. -/
def createCsvContent (jobs : List JobData) : String :=
  String.intercalate "\n" (joinComma csvHeaders :: jobs.map csvRow)

/-! ### CSV row parser

The repository itself never parses CSV back, so the parser is modelled from
the spec's description of the quoting convention. -/

/-- Modelled from the spec: scanning the inside of a quoted CSV field (the
repository has no CSV reader; §6 of the spec fixes the quoting convention:
fields are wrapped in double quotes with internal double quotes doubled).
Returns the decoded field and the input remaining after the closing quote;
`none` on an unterminated quote. -/
def parseQuoted : List Char → List Char → Option (List Char × List Char)
  | [], _ => none
  | [c], acc => if c = '"' then some (acc, []) else none
  | c :: c2 :: rest, acc =>
    if c = '"' then
      if c2 = '"' then parseQuoted rest (acc ++ ['"'])
      else some (acc, c2 :: rest)
    else parseQuoted (c2 :: rest) (acc ++ [c])

/-- Modelled from the spec: splitting one CSV row into fields, honouring the
quoting convention of §6 (fuel-bounded so that it reduces in the kernel;
`parseCsvRow` supplies enough fuel: each recursive call consumes at least
one field and its separator). -/
def parseCsvFieldsAux : Nat → List Char → List (List Char)
  | 0, _ => []
  | _ + 1, [] => [[]]
  | fuel + 1, c :: rest =>
    if c = '"' then
      match parseQuoted rest [] with
      | none => [rest]
      | some (f, []) => [f]
      | some (f, c2 :: rest') =>
        if c2 = ',' then f :: parseCsvFieldsAux fuel rest' else [f]
    else
      match (c :: rest).dropWhile (fun x => x ≠ ',') with
      | [] => [(c :: rest).takeWhile (fun x => x ≠ ',')]
      | c2 :: rest' =>
        if c2 = ',' then
          (c :: rest).takeWhile (fun x => x ≠ ',') :: parseCsvFieldsAux fuel rest'
        else [(c :: rest).takeWhile (fun x => x ≠ ',')]

/-- Modelled from the spec: parse one CSV row back into its fields. -/
def parseCsvRow (s : String) : List String :=
  (parseCsvFieldsAux (s.data.length + 1) s.data).map (fun l => ⟨l⟩)

/-! ### Retry helper (`BaseAdapter.retry`)

The operation is modelled as a function from the attempt number (starting at
1, as in the source's loop counter) to an `Except` outcome; `await`ed delays
are accounted in `waited`.  `maxAttempts` is an `Int` because the JavaScript
loop guard `attempt <= maxAttempts` also makes sense for non-positive values,
where the loop body never runs and the trailing `throw lastError!` throws the
uninitialized `lastError` — modelled as `Except.error none`. -/

/-- Outcome of a `retry` run: the result (`Except.error none` is the
`throw lastError!` of an uninitialized `lastError`), the number of times the
operation was invoked, and the total milliseconds waited between attempts. -/
structure RetryTrace (E A : Type) where
  result : Except (Option E) A
  calls : Nat
  waited : Nat

/-- The loop of `BaseAdapter.retry`.  `attempt` is the current loop counter,
`delay` the current backoff, and `fuel` the number of loop iterations left
(`maxAttempts - attempt + 1` at every call). -/
def retryGo (op : Nat → Except E A) (maxAttempts : Int) :
    Nat → Nat → Nat → RetryTrace E A
  | _, _, 0 => ⟨Except.error none, 0, 0⟩
  | attempt, delay, fuel + 1 =>
    match op attempt with
    | Except.ok a => ⟨Except.ok a, 1, 0⟩
    | Except.error e =>
      if (attempt : Int) = maxAttempts then ⟨Except.error (some e), 1, 0⟩
      else
        let rest := retryGo op maxAttempts (attempt + 1) (delay * 2) fuel
        ⟨rest.result, rest.calls + 1, rest.waited + delay⟩

/-- `BaseAdapter.retry(operation, maxAttempts, delay)`. -/
def retry (op : Nat → Except E A) (maxAttempts : Int) (baseDelay : Nat) :
    RetryTrace E A :=
  retryGo op maxAttempts 1 baseDelay maxAttempts.toNat

/-! ### `BaseAdapter.scrape` and `buildSearchQuery` -/

/-- The effectful sub-operations `scrape` sequences, with thrown exceptions
as `Except.error`: the abstract methods `initialize` (called `initStep` here
because `initialize` is reserved in Lean), `navigateToJobsPage` and
`extractJobs` of `BaseAdapter`. -/
structure AdapterOps where
  initStep : Except String Unit
  navigateToJobsPage : SearchFilters → Except String Unit
  extractJobs : Except String (List JobData)

/-- `BaseAdapter.buildSearchQuery`: descriptive join of the active filters. -/
def buildSearchQuery (f : SearchFilters) : String :=
  let parts : List String :=
    (if jsTruthyS f.keyword then ["keyword: \"" ++ f.keyword.getD "" ++ "\""] else [])
    ++ (if jsTruthyS f.category then ["category: \"" ++ f.category.getD "" ++ "\""] else [])
    ++ (match f.tags with
        | some ts => if ts.length > 0 then ["tags: [" ++ String.intercalate ", " ts ++ "]"] else []
        | none => [])
    ++ (if jsTruthyS f.jobType ∧ f.jobType ≠ some "all" then ["type: " ++ f.jobType.getD ""] else [])
    ++ (if jsTruthyS f.experienceLevel ∧ f.experienceLevel ≠ some "all" then
          ["experience: " ++ f.experienceLevel.getD ""] else [])
    ++ (if jsTruthyN f.minBudget then ["min budget: " ++ Nat.repr (f.minBudget.getD 0)] else [])
    ++ (if jsTruthyN f.maxBudget then ["max budget: " ++ Nat.repr (f.maxBudget.getD 0)] else [])
    ++ (if jsTruthyS f.location then ["location: \"" ++ f.location.getD "" ++ "\""] else [])
  if parts.length > 0 then String.intercalate ", " parts else "no filters"

/-- `BaseAdapter.scrape(filters)`: initialize, navigate, extract; on success
stamp every job with the adapter's platform name; any exception yields a
failure result whose `jobs` is the still-empty array (the `jobs` variable is
only assigned after all three steps succeed).  `cleanup()` runs in `finally`
and swallows its own errors, so it does not affect the returned value. -/
def scrape (ops : AdapterOps) (platformName : String) (filters : SearchFilters)
    (now : Nat) : ScrapingResult :=
  match (do
      ops.initStep
      ops.navigateToJobsPage filters
      ops.extractJobs : Except String (List JobData)) with
  | Except.ok jobs =>
    let stamped := jobs.map (fun job => { job with platform := platformName })
    { jobs := stamped
      totalFound := stamped.length
      platform := platformName
      searchQuery := buildSearchQuery filters
      timestamp := now
      success := true }
  | Except.error msg =>
    { jobs := []
      totalFound := 0
      platform := platformName
      searchQuery := buildSearchQuery filters
      timestamp := now
      success := false
      errors := some [msg] }

/-! ### Orchestrator (`src/scraper/ScraperOrchestrator.ts`) -/

/-- A registered adapter, as the orchestrator sees it: its composite `scrape`
(whose thrown exceptions are `Except.error`) and its pure `buildSearchUrl`. -/
structure Adapter where
  scrape : SearchFilters → Except String ScrapingResult
  buildSearchUrl : SearchFilters → String

/-- The orchestrator's `adapters` map. -/
def Registry := List (String × Adapter)

/-- `this.adapters.get(platform)`. -/
def lookupAdapter (reg : Registry) (p : String) : Option Adapter :=
  (reg.find? (fun e => e.1 = p)).map (fun e => e.2)

/-- `scrapeFromPlatform`: a missing adapter throws; an adapter whose `scrape`
throws is converted into a failure `ScrapingResult` carrying the message. -/
def scrapeFromPlatform (reg : Registry) (p : String) (filters : SearchFilters)
    (now : Nat) : Except String ScrapingResult :=
  match lookupAdapter reg p with
  | none => Except.error ("Adapter for platform \"" ++ p ++ "\" is not available")
  | some adapter =>
    match adapter.scrape filters with
    | Except.ok r => Except.ok r
    | Except.error msg =>
      Except.ok
        { jobs := []
          totalFound := 0
          platform := p
          searchQuery := adapter.buildSearchUrl filters
          timestamp := now
          success := false
          errors := some [msg] }

/-- `scrapeFromMultiplePlatforms`: sequential loop; each platform's failure is
caught and pushed as its own failure result, and the loop continues.  The
inter-platform delay and the combined save are I/O only and do not affect the
returned list. -/
def scrapeFromMultiplePlatforms (reg : Registry) (platforms : List String)
    (filters : SearchFilters) (now : Nat) : List ScrapingResult :=
  platforms.map (fun p =>
    match scrapeFromPlatform reg p filters now with
    | Except.ok r => r
    | Except.error e =>
      { jobs := []
        totalFound := 0
        platform := p
        searchQuery := "N/A"
        timestamp := now
        success := false
        errors := some [e] })

/-! ### Regular-expression model

The adapter's patterns use only literals, character classes with `*`/`+`,
optional groups and ordered alternation, all with the `i` flag.  They are
modelled with continuation-passing matchers, which gives JavaScript's ordered
alternation with backtracking into the following context.  Character-class
repetition is maximal-munch without backtracking; in every pattern of the
source the repeated class is disjoint from the possible first characters of
what follows it, so maximal munch agrees with the backtracking semantics. -/

/-- A matcher receives the input and a continuation taking the consumed
characters (as they occur in the input) and the rest. -/
def Matcher : Type :=
  List Char → (List Char → List Char → Option (List Char × List Char)) →
    Option (List Char × List Char)

/-- Case-insensitive literal scan: consume `pat` from `l`, returning the
consumed input characters and the rest. -/
def litGo : List Char → List Char → Option (List Char × List Char)
  | [], l => some ([], l)
  | _ :: _, [] => none
  | p :: ps, c :: cs =>
    if c.toLower = p.toLower then
      (litGo ps cs).map (fun r => (c :: r.1, r.2))
    else none

/-- Literal pattern (case-insensitive, matching the `i` flag). -/
def mLit (s : String) : Matcher := fun l k =>
  match litGo s.data l with
  | some (m, rest) => k m rest
  | none => none

/-- Single character of a class. -/
def mCls (p : Char → Bool) : Matcher := fun l k =>
  match l with
  | [] => none
  | c :: cs => if p c then k [c] cs else none

/-- `class*`, maximal munch. -/
def mClsStar (p : Char → Bool) : Matcher := fun l k =>
  k (l.takeWhile p) (l.dropWhile p)

/-- `class+`, maximal munch. -/
def mClsPlus (p : Char → Bool) : Matcher := fun l k =>
  match l with
  | [] => none
  | c :: cs => if p c then k (c :: cs.takeWhile p) (cs.dropWhile p) else none

/-- Sequencing of two matchers. -/
def mSeq (a b : Matcher) : Matcher := fun l k =>
  a l (fun m1 r1 => b r1 (fun m2 r2 => k (m1 ++ m2) r2))

/-- Empty pattern. -/
def mEps : Matcher := fun l k => k [] l

/-- Sequencing of a pattern list. -/
def mSeqs (ms : List Matcher) : Matcher := ms.foldr mSeq mEps

/-- Ordered alternation `a|b` (tries `b` only if `a` fails under the whole
continuation, i.e. with backtracking). -/
def mAlt (a b : Matcher) : Matcher := fun l k =>
  match a l k with
  | some r => some r
  | none => b l k

/-- Ordered alternation over a list of patterns. -/
def mAlts (ms : List Matcher) : Matcher := ms.foldr mAlt (fun _ _ => none)

/-- Greedy option `a?`. -/
def mOpt (a : Matcher) : Matcher := fun l k =>
  match a l k with
  | some r => some r
  | none => k [] l

/-- Run a matcher at the current position. -/
def mRun (m : Matcher) (l : List Char) : Option (List Char × List Char) :=
  m l (fun consumed rest => some (consumed, rest))

/-- A position-aware match attempt: gets the character preceding the current
position (for word boundaries) and the input from the position on. -/
def StepFn : Type := Option Char → List Char → Option (List Char × List Char)

/-- Scan the input left to right and return the first match (JavaScript
`String.match` semantics: earliest starting position wins). -/
def scanFrom (step : StepFn) : Option Char → List Char → Option (List Char × List Char)
  | prev, [] => step prev []
  | prev, c :: cs =>
    match step prev (c :: cs) with
    | some r => some r
    | none => scanFrom step (some c) cs

/-- First match of a matcher in a string (`text.match(re)` then `[0]`). -/
def firstMatch (m : Matcher) (s : String) : Option String :=
  (scanFrom (fun _ l => mRun m l) none s.data).map (fun r => ⟨r.1⟩)

/-- All matches, non-overlapping, left to right (`text.match(/.../g)`).
`fuel` bounds the number of matches; every pattern in the source consumes at
least one character per match, so `length + 1` fuel is always enough. -/
def allMatchesAux (step : StepFn) : Nat → Option Char → List Char → List (List Char)
  | 0, _, _ => []
  | fuel + 1, prev, l =>
    match scanFrom step prev l with
    | none => []
    | some (m, rest) =>
      m :: allMatchesAux step fuel (m.getLast?.orElse (fun _ => prev)) rest

/-- All matches of a plain (boundary-free) matcher in a string. -/
def allMatches (m : Matcher) (s : String) : List String :=
  (allMatchesAux (fun _ l => mRun m l) (s.data.length + 1) none s.data).map
    (fun r => ⟨r⟩)

/-- JavaScript `\w` (word character) for `\b` boundaries. -/
def isWordChar (c : Char) : Bool := c.isAlphanum || c = '_'

/-- Word-boundary test between two adjacent positions (`none` = string end). -/
def bdryOk (a b : Option Char) : Bool :=
  (match a with | some c => isWordChar c | none => false) ≠
  (match b with | some c => isWordChar c | none => false)

/-- Match attempt for `/\b(kw1|kw2|...)\b/i` at one position: alternatives in
source order, each checked against both boundaries; a failed trailing
boundary falls through to the next alternative, as in the backtracking
regex engine. -/
def kwStep (kws : List String) : StepFn := fun prev l =>
  match kws with
  | [] => none
  | kw :: rest =>
    match litGo kw.data l with
    | some (m, r) =>
      if bdryOk prev m.head? && bdryOk m.getLast? r.head? then some (m, r)
      else kwStep rest prev l
    | none => kwStep rest prev l

/-- All matches of a keyword-family pattern `/\b(...)\b/gi` in a string. -/
def kwMatches (kws : List String) (s : String) : List String :=
  (allMatchesAux (kwStep kws) (s.data.length + 1) none s.data).map (fun r => ⟨r⟩)

/-! ### Character classes used by the adapter's patterns -/

/-- `[\d,]`. -/
def digitComma (c : Char) : Bool := c.isDigit || c = ','

/-- `\d`. -/
def isDigitC (c : Char) : Bool := c.isDigit

/-- `[:\s]`. -/
def colonWs (c : Char) : Bool := c = ':' || isWs c

/-! ### FreelancerAdapter: extraction (`extractJobFromElement` and friends) -/

/-- `this.baseUrl` of `FreelancerAdapter`. -/
def baseUrl : String := "https://www.freelancer.in"

/-- A descendant element as the extractor uses it: its text content and its
`href` attribute. -/
structure SubElem where
  text : String
  href : Option String := none

/-- One candidate listing element: its text content (`element.textContent()`)
and `element.$(selector)`, the first matching descendant per selector. -/
structure JobElement where
  text : String
  sub : String → Option SubElem

/-- `budgetPatterns` of `extractJobFromElement`, in source order:
`/₹([\d,]+)(?:\s*-\s*₹([\d,]+))?\s*(?:INR)?/gi`,
`/\$([\d,]+)(?:\s*-\s*\$([\d,]+))?\s*(?:USD)?/gi`,
`/Budget[:\s]*₹([\d,]+)/gi`, `/Budget[:\s]*\$([\d,]+)/gi`. -/
def budgetPatterns : List Matcher :=
  [ mSeqs [mLit "₹", mClsPlus digitComma,
      mOpt (mSeqs [mClsStar isWs, mLit "-", mClsStar isWs, mLit "₹", mClsPlus digitComma]),
      mClsStar isWs, mOpt (mLit "INR")],
    mSeqs [mLit "$", mClsPlus digitComma,
      mOpt (mSeqs [mClsStar isWs, mLit "-", mClsStar isWs, mLit "$", mClsPlus digitComma]),
      mClsStar isWs, mOpt (mLit "USD")],
    mSeqs [mLit "Budget", mClsStar colonWs, mLit "₹", mClsPlus digitComma],
    mSeqs [mLit "Budget", mClsStar colonWs, mLit "$", mClsPlus digitComma] ]

/-- `hourlyPatterns`, in source order:
`/₹([\d,]+)(?:\s*-\s*₹([\d,]+))?\s*\/\s*hour/gi`,
`/\$([\d,]+)(?:\s*-\s*\$([\d,]+))?\s*\/\s*hour/gi`,
`/([\d,]+)\s*\/\s*hr/gi`, `/Hourly[:\s]*₹([\d,]+)/gi`. -/
def hourlyPatterns : List Matcher :=
  [ mSeqs [mLit "₹", mClsPlus digitComma,
      mOpt (mSeqs [mClsStar isWs, mLit "-", mClsStar isWs, mLit "₹", mClsPlus digitComma]),
      mClsStar isWs, mLit "/", mClsStar isWs, mLit "hour"],
    mSeqs [mLit "$", mClsPlus digitComma,
      mOpt (mSeqs [mClsStar isWs, mLit "-", mClsStar isWs, mLit "$", mClsPlus digitComma]),
      mClsStar isWs, mLit "/", mClsStar isWs, mLit "hour"],
    mSeqs [mClsPlus digitComma, mClsStar isWs, mLit "/", mClsStar isWs, mLit "hr"],
    mSeqs [mLit "Hourly", mClsStar colonWs, mLit "₹", mClsPlus digitComma] ]

/-- `timePatterns`, in source order: hours / days / weeks ago, `yesterday`,
`today`. -/
def timePatterns : List Matcher :=
  [ mSeqs [mClsPlus isDigitC, mClsStar isWs,
      mAlts [mLit "hour", mLit "hr", mLit "hours", mLit "hrs"], mClsStar isWs, mLit "ago"],
    mSeqs [mClsPlus isDigitC, mClsStar isWs,
      mAlts [mLit "day", mLit "days"], mClsStar isWs, mLit "ago"],
    mSeqs [mClsPlus isDigitC, mClsStar isWs,
      mAlts [mLit "week", mLit "weeks"], mClsStar isWs, mLit "ago"],
    mLit "yesterday",
    mLit "today" ]

/-- `clientPatterns`, in source order: reviews, jobs posted, payment
verified, verified, amount spent. -/
def clientPatterns : List Matcher :=
  [ mSeqs [mClsPlus isDigitC, mClsStar isWs, mAlts [mLit "review", mLit "reviews"]],
    mSeqs [mClsPlus isDigitC, mClsStar isWs, mAlts [mLit "job", mLit "jobs"],
      mClsStar isWs, mLit "posted"],
    mSeqs [mLit "Payment", mClsStar isWs, mLit "verified"],
    mLit "Verified",
    mSeqs [mLit "$", mCls isDigitC, mClsStar digitComma, mClsStar isWs, mLit "spent"] ]

/-- First-match-wins loop over a pattern list (`for (const pattern of ...)`
with `text.match(pattern)` and `break` on the first hit). -/
def firstMatchOfList (pats : List Matcher) (text : String) : Option String :=
  match pats with
  | [] => none
  | p :: rest =>
    match firstMatch p text with
    | some m => some m
    | none => firstMatchOfList rest text

/-- The client-info loop: first pattern with matches wins; up to the first
two matches are joined with a comma (the `break` sits inside the
`if (matches)` guard, hence the inner emptiness check). -/
def clientInfoLoop (pats : List Matcher) (text : String) : Option String :=
  match pats with
  | [] => none
  | p :: rest =>
    match allMatches p text with
    | [] => clientInfoLoop rest text
    | m :: ms =>
      let joined := String.intercalate ", " ((m :: ms).take 2)
      if joined ≠ "" then some joined else clientInfoLoop rest text

/-- The seven keyword families of `extractSkillsFromText`, in source order.
`Node\.?js` is expanded into its two ordered alternatives. -/
def skillFamilies : List (List String) :=
  [ ["JavaScript", "TypeScript", "Python", "Java", "C++", "C#", "PHP", "Ruby",
     "Go", "Rust", "Swift", "Kotlin", "Scala"],
    ["React", "Vue", "Angular", "Node.js", "Nodejs", "Express", "Django",
     "Flask", "Laravel", "Spring", "ASP.NET"],
    ["MySQL", "PostgreSQL", "MongoDB", "Redis", "SQLite", "Oracle", "SQL Server"],
    ["AWS", "Azure", "Google Cloud", "Docker", "Kubernetes", "Jenkins", "CI/CD"],
    ["Photoshop", "Illustrator", "Figma", "Sketch", "After Effects", "Premiere",
     "Content Writing", "Copywriting"],
    ["SEO", "SEM", "Social Media", "Digital Marketing", "Data Entry",
     "Virtual Assistant", "Excel", "Word"],
    ["iOS", "Android", "React Native", "Flutter", "Xamarin", "Ionic"] ]

/-- JavaScript `new Set(array)` materialized back into an array: keeps the
first occurrence of each element, in order.  `seen` accumulates the elements
already emitted. -/
def jsSetDedupAux : List String → List String → List String
  | _, [] => []
  | seen, x :: xs =>
    if x ∈ seen then jsSetDedupAux seen xs
    else x :: jsSetDedupAux (x :: seen) xs

/-- `Array.from(new Set(l))`. -/
def jsSetDedup (l : List String) : List String := jsSetDedupAux [] l

/-- The pushes of `extractSkillsFromText` before deduplication: for each
family pattern, all matches in the text, trimmed. -/
def skillMatchesRaw (text : String) : List String :=
  skillFamilies.flatMap (fun fam => (kwMatches fam text).map jsTrim)

/-- `extractSkillsFromText` of `FreelancerAdapter`. -/
def extractSkillsFromText (text : String) : List String :=
  jsSetDedup (skillMatchesRaw text)

/-- `titleSelectors` of `extractJobFromElement`, in source order. -/
def titleSelectors : List String :=
  ["h1", "h2", "h3", "h4", ".job-title", ".project-title", ".title",
   "[data-testid=\"job-title\"]", "a[href*=\"/projects/\"]",
   "a[href*=\"/job/\"]", ".JobSearchCard-primary-heading",
   ".JobSearchCard-item-title"]

/-- The title selector loop: each found element's cleaned text is assigned;
the loop breaks once the text is non-empty and not the placeholder. -/
def pickTitle (e : JobElement) : List String → String → String
  | [], t => t
  | sel :: rest, t =>
    match e.sub sel with
    | none => pickTitle e rest t
    | some el =>
      let t' := cleanText el.text
      if t' ≠ "" ∧ t' ≠ "Untitled Job" then t' else pickTitle e rest t'

/-- The title fallback: first cleaned line of the raw text with length in
(10, 100) containing no currency symbol; only applied while the title is
still the placeholder. -/
def titleFallback (elementText : String) (t : String) : String :=
  if t = "Untitled Job" then
    let lines := (splitOnChar '\n' elementText.data).map (fun l => cleanText ⟨l⟩)
    let good := lines.filter (fun line =>
      decide (line.length > 10) && decide (line.length < 100) &&
      !(strIncludes line "₹") && !(strIncludes line "$"))
    match good with
    | [] => t
    | l0 :: _ => l0
  else t

/-- The anchor selector used for the job URL. -/
def linkSelector : String := "a[href*=\"/projects/\"], a[href*=\"/job/\"]"

/-- Job URL extraction: first project/job anchor; relative references are
resolved against the platform base URL. -/
def extractUrl (e : JobElement) : String :=
  match e.sub linkSelector with
  | some el =>
    match el.href with
    | some h => if h.startsWith "http" then h else baseUrl ++ h
    | none => ""
  | none => ""

/-- `descSelectors` of `extractJobFromElement`, in source order. -/
def descSelectors : List String :=
  [".job-description", ".project-description", ".description",
   ".JobSearchCard-secondary-price", "p"]

/-- The description selector loop: first selector whose cleaned text is
longer than 20 characters wins, truncated to 500 characters. -/
def pickDescription (e : JobElement) : List String → Option String
  | [] => none
  | sel :: rest =>
    match e.sub sel with
    | none => pickDescription e rest
    | some el =>
      let t := cleanText el.text
      if t ≠ "" ∧ t.length > 20 then some ⟨t.data.take 500⟩
      else pickDescription e rest

/-- The description fallback: cleaned lines with length in (30, 300), of
which elements 1 and 2 (`slice(1, 3)`) are joined and truncated to 500. -/
def descFallback (elementText : String) : String :=
  let lines := (splitOnChar '\n' elementText.data).map (fun l => cleanText ⟨l⟩)
  let good := lines.filter (fun line =>
    decide (line.length > 30) && decide (line.length < 300))
  ⟨(String.intercalate " " ((good.drop 1).take 2)).data.take 500⟩

/-- The experience-level containment checks, in source order. -/
def extractExperience (elementText : String) : String :=
  let lower := jsToLower elementText
  if strIncludes lower "entry level" || strIncludes lower "beginner" then
    "Entry Level"
  else if strIncludes lower "intermediate" then "Intermediate"
  else if strIncludes lower "expert" || strIncludes lower "advanced" then
    "Expert"
  else "Not specified"

/-- `extractJobFromElement` of `FreelancerAdapter`.  The surrounding
`try`/`catch` only guards against runtime DOM errors, which the pure
embedding cannot raise, so the function is total here; the final `x || d`
defaults of the source are kept as `jsOr`. -/
def extractJobFromElement (e : JobElement) : JobData :=
  let elementText := e.text
  let title := titleFallback elementText (pickTitle e titleSelectors "Untitled Job")
  let jobUrl := extractUrl e
  let description :=
    match pickDescription e descSelectors with
    | some d => d
    | none => descFallback elementText
  let budgetM := firstMatchOfList budgetPatterns elementText
  let hourlyM := firstMatchOfList hourlyPatterns elementText
  let jobType :=
    match hourlyM with
    | some _ => "Hourly"
    | none => match budgetM with
      | some _ => "Fixed Price"
      | none => "Not specified"
  let skills := extractSkillsFromText elementText
  let postedTime := (firstMatchOfList timePatterns elementText).getD "Recently posted"
  let clientInfo := (clientInfoLoop clientPatterns elementText).getD "Client information not available"
  { title := jsOr title "Untitled Job"
    description := jsOr description "No description available"
    budget := budgetM.getD ""
    hourlyRate := hourlyM.getD ""
    skills := skills
    postedTime := jsOr postedTime "Recently posted"
    clientInfo := jsOr clientInfo "Client information not available"
    jobUrl := jobUrl
    jobType := jsOr jobType "Not specified"
    duration := "Not specified"
    experienceLevel := jsOr (extractExperience elementText) "Not specified"
    platform := "freelancer" }

/-! ### FreelancerAdapter: selector tiers and `extractJobs` -/

/-- A rendered page, as the extraction code sees it: `page.$$(selector)`. -/
structure Page where
  queryAll : String → List JobElement

/-- `modernSelectors` of `extractJobsWithModernSelectors`, in source order. -/
def modernSelectors : List String :=
  [".JobSearchCard-item", ".JobCard", "[data-testid=\"job-card\"]",
   ".project-item"]

/-- `legacySelectors` of `extractJobsWithLegacySelectors`, in source order. -/
def legacySelectors : List String :=
  [".job-item", ".project-card", ".freelancer-job", "[data-job-id]",
   ".job-listing"]

/-- The generic tier's selector. -/
def genericSelector : String := "article, .card, [class*=\"job\"], [class*=\"project\"]"

/-- The per-tier loop: the first selector returning at least one element
wins (`break` after processing it); selectors with no elements are skipped. -/
def firstSelectorHit (page : Page) : List String → List JobElement
  | [] => []
  | sel :: rest =>
    match page.queryAll sel with
    | [] => firstSelectorHit page rest
    | el :: els => el :: els

/-- `extractJobsWithModernSelectors` (extraction failures cannot arise in the
pure embedding, so every element yields its job). -/
def extractJobsWithModernSelectors (page : Page) : List JobData :=
  (firstSelectorHit page modernSelectors).map extractJobFromElement

/-- `extractJobsWithLegacySelectors`. -/
def extractJobsWithLegacySelectors (page : Page) : List JobData :=
  (firstSelectorHit page legacySelectors).map extractJobFromElement

/-- `extractJobsGeneric`: any structural element whose text is longer than
100 characters and contains a currency marker or the word "hour". -/
def extractJobsGeneric (page : Page) : List JobData :=
  ((page.queryAll genericSelector).filter (fun el =>
      decide (el.text.length > 100) &&
      (strIncludes el.text "₹" || strIncludes el.text "$" ||
        strIncludes el.text "hour"))).map
    extractJobFromElement

/-- The uncapped tier cascade of `extractJobs`: modern, then legacy if the
modern tier produced nothing, then generic. -/
def extractedCandidates (page : Page) : List JobData :=
  let jobs := extractJobsWithModernSelectors page
  let jobs := if jobs.length = 0 then extractJobsWithLegacySelectors page else jobs
  if jobs.length = 0 then extractJobsGeneric page else jobs

/-- `extractJobs` of `FreelancerAdapter`: the cascade capped by
`jobs.slice(0, this.config.maxJobs)`. -/
def extractJobs (page : Page) (maxJobs : Nat) : List JobData :=
  (extractedCandidates page).take maxJobs

/-! ### FreelancerAdapter: `buildSearchUrl`

`URLSearchParams` is modelled as the ordered list of appended pairs plus the
standard `application/x-www-form-urlencoded` serialization. -/

/-- `supportedCategories` of `FreelancerAdapter`, in source order. -/
def supportedCategories : List String :=
  ["websites", "mobile-apps", "software-development", "data-entry", "writing",
   "translation", "design", "marketing", "engineering-architecture", "legal",
   "admin-support", "customer-service", "sales", "accounting"]

/-- Characters `URLSearchParams` leaves unescaped. -/
def formUrlChar (c : Char) : Bool :=
  c.isAlphanum || c = '*' || c = '-' || c = '.' || c = '_'

/-- UTF-8 bytes of a character (for percent-encoding). -/
def utf8Bytes (c : Char) : List Nat :=
  let n := c.toNat
  if n < 128 then [n]
  else if n < 2048 then [192 + n / 64, 128 + n % 64]
  else if n < 65536 then [224 + n / 4096, 128 + n / 64 % 64, 128 + n % 64]
  else [240 + n / 262144, 128 + n / 4096 % 64, 128 + n / 64 % 64, 128 + n % 64]

/-- Uppercase hexadecimal digit. -/
def hexDigit (n : Nat) : Char :=
  if n < 10 then Char.ofNat (48 + n) else Char.ofNat (55 + n)

/-- Percent-encoding of one byte. -/
def pctByte (b : Nat) : List Char := ['%', hexDigit (b / 16), hexDigit (b % 16)]

/-- `application/x-www-form-urlencoded` encoding of one character. -/
def encodeFormChar (c : Char) : List Char :=
  if formUrlChar c then [c]
  else if c = ' ' then ['+']
  else (utf8Bytes c).flatMap pctByte

/-- Form encoding of a string. -/
def encodeForm (s : String) : String := ⟨s.data.flatMap encodeFormChar⟩

/-- `params.toString()`: `key=value` pairs joined with `&`. -/
def paramsToString (ps : List (String × String)) : String :=
  String.intercalate "&" (ps.map (fun p => encodeForm p.1 ++ "=" ++ encodeForm p.2))

/-- The `URLSearchParams` appends of `buildSearchUrl`, in source order.  The
JavaScript truthiness guards (`if (filters.keyword)` etc.) are kept, and the
`tags` branch fires only when no keyword was appended. -/
def searchParams (f : SearchFilters) : List (String × String) :=
  (if jsTruthyS f.keyword then [("keyword", f.keyword.getD "")] else [])
  ++ (if !jsTruthyS f.keyword &&
        (match f.tags with | some ts => decide (ts.length > 0) | none => false) then
        [("keyword", String.intercalate " " (f.tags.getD []))]
      else [])
  ++ (if jsTruthyS f.jobType && !decide (f.jobType = some "all") then
        (if f.jobType = some "fixed" then [("type", "fixed")]
         else if f.jobType = some "hourly" then [("type", "hourly")]
         else [])
      else [])
  ++ (if jsTruthyN f.minBudget then [("min_price", Nat.repr (f.minBudget.getD 0))] else [])
  ++ (if jsTruthyN f.maxBudget then [("max_price", Nat.repr (f.maxBudget.getD 0))] else [])
  ++ (if jsTruthyS f.sortBy then
        (if f.sortBy = some "newest" then [("sort", "time")]
         else if f.sortBy = some "budget" then [("sort", "price")]
         else [])
      else [])

/-- `buildSearchUrl` of `FreelancerAdapter`: base `/jobs` URL, a category
path segment only for supported categories, then the query string (omitted
entirely when no parameter was appended). -/
def buildSearchUrl (f : SearchFilters) : String :=
  let url := baseUrl ++ "/jobs"
  let url :=
    if jsTruthyS f.category && decide (f.category.getD "" ∈ supportedCategories) then
      url ++ "/" ++ f.category.getD ""
    else url
  let queryString := paramsToString (searchParams f)
  if queryString ≠ "" then url ++ "?" ++ queryString else url

/-! ### Orchestrator: `getStatistics` -/

/-- One entry of `platformStats`. -/
structure PlatformStat where
  platform : String
  jobs : Nat
  success : Bool
  errors : Nat
deriving Repr, DecidableEq

/-- The value returned by `getStatistics` (its `timestamp` is I/O noise and
is supplied by the caller like the other timestamps). -/
structure Statistics where
  totalJobs : Nat
  totalPlatforms : Nat
  successfulPlatforms : Nat
  failedPlatforms : Nat
  platformStats : List PlatformStat
  topSkills : List (String × Nat)
deriving Repr, DecidableEq

/-- One increment of the `skillFrequency` object:
`skillFrequency[skill] = (skillFrequency[skill] || 0) + 1`.  A JavaScript
object with string keys keeps first-insertion order, so the histogram is an
ordered association list. -/
def bumpSkill (freq : List (String × Nat)) (s : String) : List (String × Nat) :=
  if freq.any (fun p => p.1 = s) then
    freq.map (fun p => if p.1 = s then (p.1, p.2 + 1) else p)
  else freq ++ [(s, 1)]

/-- The nested `forEach` building `skillFrequency`. -/
def skillFrequency (results : List ScrapingResult) : List (String × Nat) :=
  results.foldl
    (fun acc r => r.jobs.foldl (fun acc2 job => job.skills.foldl bumpSkill acc2) acc)
    []

/-- Stable insertion into a descending-by-count list: the inserted entry goes
before the first entry whose count is not larger, so that among equal counts
the earlier-inserted entry stays first. -/
def insertDesc (x : String × Nat) : List (String × Nat) → List (String × Nat)
  | [] => [x]
  | y :: ys => if y.2 > x.2 then y :: insertDesc x ys else x :: y :: ys

/-- JavaScript `entries.sort(([,a],[,b]) => b - a)`: a stable sort by count
descending.  Stable sorting under a total preorder has a unique result, so
stable insertion sort is a faithful model of the engine's sort. -/
def sortByCountDesc (l : List (String × Nat)) : List (String × Nat) :=
  l.foldr insertDesc []

/-- `getStatistics` of `ScraperOrchestrator`. -/
def getStatistics (results : List ScrapingResult) : Statistics :=
  { totalJobs := results.foldl (fun sum r => sum + r.jobs.length) 0
    totalPlatforms := results.length
    successfulPlatforms := (results.filter (fun r => r.success)).length
    failedPlatforms := results.length - (results.filter (fun r => r.success)).length
    platformStats := results.map (fun r =>
      { platform := r.platform
        jobs := r.jobs.length
        success := r.success
        errors := (r.errors.getD []).length })
    topSkills := (sortByCountDesc (skillFrequency results)).take 10 }

/-- All skill occurrences across all jobs of all results, in the traversal
order of `getStatistics`'s nested `forEach`. -/
def allSkills : List ScrapingResult → List String
  | [] => []
  | r :: rest => (r.jobs.map (fun j => j.skills)).flatten ++ allSkills rest

/-- Total number of occurrences of a skill across all jobs of all results
(what `skillFrequency` is supposed to count). -/
def countSkill (results : List ScrapingResult) (s : String) : Nat :=
  (allSkills results).count s

/-- A frequency list `freq` is a correct histogram of the multiset of
`processed` skills: every entry carries the exact occurrence count, every
processed skill has an entry, and keys are unique. -/
def goodHisto (freq : List (String × Nat)) (processed : List String) : Prop :=
  (∀ p ∈ freq, p.2 = processed.count p.1) ∧
  (∀ s, s ∈ processed → ∃ p ∈ freq, p.1 = s) ∧
  (freq.map Prod.fst).Nodup

/-! ### Concrete inputs used by witnesses and counterexamples -/

/-- A listing whose description contains a comma, a double quote and a
newline. -/
def csvCexJob : JobData :=
  { title := "Sample"
    description := "a,b\"c\nd"
    budget := "$100"
    hourlyRate := ""
    skills := ["Python"]
    postedTime := "2 days ago"
    clientInfo := "5 review"
    jobUrl := "https://example.com/p/1"
    jobType := "Fixed Price"
    duration := "Not specified"
    experienceLevel := "Expert"
    platform := "freelancer" }

/-- The element of the client-info scenario in §8 of the spec. -/
def clientScenarioElem : JobElement :=
  { text := "Budget: $500 - $800, 3 reviews, Payment verified"
    sub := fun _ => none }

/-- A minimal candidate element. -/
def plainElem : JobElement := { text := "", sub := fun _ => none }

/-- An adapter whose `scrape` always throws. -/
def failingAdapter : Adapter :=
  { scrape := fun _ => Except.error "network down"
    buildSearchUrl := fun _ => "https://a.example/jobs" }

/-- A job as returned by the healthy witness adapter. -/
def wJob : JobData :=
  { title := "W"
    description := "D"
    budget := ""
    hourlyRate := "$10/hr"
    skills := ["React", "AWS"]
    postedTime := "today"
    clientInfo := "2 review"
    jobUrl := ""
    jobType := "Hourly"
    duration := "Not specified"
    experienceLevel := "Entry Level"
    platform := "other" }

/-- The result returned by the healthy witness adapter. -/
def okResult : ScrapingResult :=
  { jobs := [wJob]
    totalFound := 1
    platform := "b"
    searchQuery := "q"
    timestamp := 7
    success := true }

/-- An adapter whose `scrape` always succeeds. -/
def okAdapter : Adapter :=
  { scrape := fun _ => Except.ok okResult
    buildSearchUrl := fun _ => "https://b.example/jobs" }

/-- Witness registry: platform `a` always raises, platform `b` succeeds
(and platform `c` will be requested without being registered). -/
def wRegistry : Registry := [("a", failingAdapter), ("b", okAdapter)]

/-- Witness operation: fails on attempts 1 and 2, succeeds on attempt 3. -/
def wOp : Nat → Except String Nat :=
  fun i => if i ≤ 2 then Except.error ("fail " ++ Nat.repr i) else Except.ok 42

/-- Witness operation that fails on every attempt. -/
def wOpAllFail : Nat → Except String Nat :=
  fun i => Except.error ("fail " ++ Nat.repr i)

/-- Witness adapter operations: every step succeeds, extraction returns one
job whose `platform` field differs from the adapter's name. -/
def wOps : AdapterOps :=
  { initStep := Except.ok ()
    navigateToJobsPage := fun _ => Except.ok ()
    extractJobs := Except.ok [wJob] }

/-! ## Theorems -/

/-! ### CSV round-trip (claim C1) -/

theorem commaJoin_length_ge (ls : List (List Char)) :
    ls.length ≤ (commaJoin ls).length + 1 := by
  induction ls with
  | nil => simp [commaJoin]
  | cons f tail ih =>
    cases tail with
    | nil => simp [commaJoin]
    | cons g rest =>
      simp only [commaJoin, List.length_cons, List.length_append] at *
      omega

theorem parseQuoted_doubled (f : List Char) :
    ∀ (acc rest : List Char), rest.head? ≠ some '"' →
      parseQuoted (doubleQuotes f ++ '"' :: rest) acc = some (acc ++ f, rest) := by
  induction f with
  | nil =>
    intro acc rest h
    show parseQuoted ('"' :: rest) acc = some (acc ++ [], rest)
    cases rest with
    | nil => simp [parseQuoted]
    | cons c rs =>
      have hc : c ≠ '"' := by
        intro hcontra
        exact h (by simp [hcontra])
      simp [parseQuoted, hc]
  | cons c f' ih =>
    intro acc rest h
    by_cases hc : c = '"'
    · subst hc
      have hd : doubleQuotes ('"' :: f') = '"' :: '"' :: doubleQuotes f' := by
        rw [doubleQuotes]; rw [if_pos rfl]
      rw [hd, List.cons_append, List.cons_append, parseQuoted]
      rw [if_pos rfl, if_pos rfl]
      rw [ih (acc ++ ['"']) rest h]
      simp
    · have hd : doubleQuotes (c :: f') = c :: doubleQuotes f' := by
        rw [doubleQuotes]; rw [if_neg hc]
      obtain ⟨b, tail, hB⟩ : ∃ b tail, doubleQuotes f' ++ '"' :: rest = b :: tail := by
        cases hD : doubleQuotes f' with
        | nil => exact ⟨'"', rest, by simp⟩
        | cons b t => exact ⟨b, t ++ '"' :: rest, by simp⟩
      rw [hd, List.cons_append, hB, parseQuoted]
      rw [if_neg hc, ← hB]
      rw [ih (acc ++ [c]) rest h]
      simp

theorem takeWhile_no_comma (f : List Char) (hf : ',' ∉ f) :
    f.takeWhile (fun x => x ≠ ',') = f := by
  induction f with
  | nil => rfl
  | cons c f' ih =>
    have hc : decide (c ≠ ',') = true :=
      decide_eq_true (fun hcontra => hf (by simp [hcontra]))
    simp only [List.takeWhile_cons]
    rw [hc, if_pos rfl, ih (fun hm => hf (List.mem_cons_of_mem _ hm))]

theorem dropWhile_no_comma (f : List Char) (hf : ',' ∉ f) :
    f.dropWhile (fun x => x ≠ ',') = [] := by
  induction f with
  | nil => rfl
  | cons c f' ih =>
    have hc : decide (c ≠ ',') = true :=
      decide_eq_true (fun hcontra => hf (by simp [hcontra]))
    simp only [List.dropWhile_cons]
    rw [hc, if_pos rfl]
    exact ih (fun hm => hf (List.mem_cons_of_mem _ hm))

theorem takeWhile_comma_append (f r : List Char) (hf : ',' ∉ f) :
    (f ++ ',' :: r).takeWhile (fun x => x ≠ ',') = f := by
  induction f with
  | nil =>
    simp only [List.nil_append, List.takeWhile_cons]
    simp
  | cons c f' ih =>
    have hc : decide (c ≠ ',') = true :=
      decide_eq_true (fun hcontra => hf (by simp [hcontra]))
    simp only [List.cons_append, List.takeWhile_cons]
    rw [hc, if_pos rfl, ih (fun hm => hf (List.mem_cons_of_mem _ hm))]

theorem dropWhile_comma_append (f r : List Char) (hf : ',' ∉ f) :
    (f ++ ',' :: r).dropWhile (fun x => x ≠ ',') = ',' :: r := by
  induction f with
  | nil =>
    simp only [List.nil_append, List.dropWhile_cons]
    simp
  | cons c f' ih =>
    have hc : decide (c ≠ ',') = true :=
      decide_eq_true (fun hcontra => hf (by simp [hcontra]))
    simp only [List.cons_append, List.dropWhile_cons]
    rw [hc, if_pos rfl]
    exact ih (fun hm => hf (List.mem_cons_of_mem _ hm))

theorem parseAux_commaJoin (fields : List (List Char)) :
    ∀ fuel, fields.length ≤ fuel → fields ≠ [] →
      parseCsvFieldsAux fuel (commaJoin (fields.map escapeChars)) = fields := by
  induction fields with
  | nil => intro fuel _ hne; exact absurd rfl hne
  | cons f tail ih =>
    intro fuel hfuel _
    obtain ⟨fu, rfl⟩ : ∃ fu, fuel = fu + 1 := by
      cases fuel with
      | zero => simp at hfuel
      | succ n => exact ⟨n, rfl⟩
    cases tail with
    | nil =>
      by_cases hq : (f.contains ',' || f.contains '"' || f.contains '\n') = true
      · have he : escapeChars f = '"' :: doubleQuotes f ++ ['"'] := by
          rw [escapeChars]; rw [if_pos hq]
        show parseCsvFieldsAux (fu + 1) (commaJoin [escapeChars f]) = [f]
        rw [show commaJoin [escapeChars f] = escapeChars f from rfl, he]
        rw [List.cons_append, parseCsvFieldsAux]
        rw [if_pos rfl]
        rw [parseQuoted_doubled f [] [] (by simp)]
        simp
      · have hnc : ',' ∉ f := fun hm => hq (by simp [hm])
        have hnq : '"' ∉ f := fun hm => hq (by simp [hm])
        have he : escapeChars f = f := by rw [escapeChars]; rw [if_neg hq]
        show parseCsvFieldsAux (fu + 1) (commaJoin [escapeChars f]) = [f]
        rw [show commaJoin [escapeChars f] = escapeChars f from rfl, he]
        cases f with
        | nil => rfl
        | cons c f' =>
          have hc : c ≠ '"' := fun hcontra => hnq (by simp [hcontra])
          rw [parseCsvFieldsAux]
          rw [if_neg hc, dropWhile_no_comma _ hnc]
          rw [takeWhile_no_comma _ hnc]
    | cons g rest =>
      have hfu : (g :: rest).length ≤ fu := by
        simpa [Nat.succ_le_succ_iff] using hfuel
      have hjoin : commaJoin ((f :: g :: rest).map escapeChars)
          = escapeChars f ++ ',' :: commaJoin ((g :: rest).map escapeChars) := by
        simp [commaJoin]
      by_cases hq : (f.contains ',' || f.contains '"' || f.contains '\n') = true
      · have he : escapeChars f = '"' :: doubleQuotes f ++ ['"'] := by
          rw [escapeChars]; rw [if_pos hq]
        rw [hjoin, he]
        rw [List.append_assoc, List.singleton_append, List.cons_append]
        rw [parseCsvFieldsAux]
        rw [if_pos rfl]
        rw [parseQuoted_doubled f []
          (',' :: commaJoin ((g :: rest).map escapeChars)) (by simp)]
        show (if (',' : Char) = ',' then
            ([] ++ f) :: parseCsvFieldsAux fu (commaJoin ((g :: rest).map escapeChars))
          else [[] ++ f]) = f :: g :: rest
        rw [if_pos rfl, List.nil_append]
        rw [ih fu hfu (by simp)]
      · have hnc : ',' ∉ f := fun hm => hq (by simp [hm])
        have hnq : '"' ∉ f := fun hm => hq (by simp [hm])
        have he : escapeChars f = f := by rw [escapeChars]; rw [if_neg hq]
        rw [hjoin, he]
        cases f with
        | nil =>
          rw [List.nil_append, parseCsvFieldsAux]
          rw [if_neg (by decide : ¬ (',' : Char) = '"')]
          have hdrop : (',' :: commaJoin ((g :: rest).map escapeChars)).dropWhile
              (fun x => x ≠ ',') = ',' :: commaJoin ((g :: rest).map escapeChars) := by
            simp [List.dropWhile_cons]
          have htake : (',' :: commaJoin ((g :: rest).map escapeChars)).takeWhile
              (fun x => x ≠ ',') = [] := by
            simp [List.takeWhile_cons]
          rw [hdrop]
          show (if (',' : Char) = ',' then
              (',' :: commaJoin ((g :: rest).map escapeChars)).takeWhile (fun x => x ≠ ',')
                :: parseCsvFieldsAux fu (commaJoin ((g :: rest).map escapeChars))
            else [(',' :: commaJoin ((g :: rest).map escapeChars)).takeWhile
                (fun x => x ≠ ',')]) = [] :: g :: rest
          rw [if_pos rfl, htake, ih fu hfu (by simp)]
        | cons c f' =>
          have hc : c ≠ '"' := fun hcontra => hnq (by simp [hcontra])
          rw [List.cons_append, parseCsvFieldsAux]
          rw [if_neg hc]
          have hdrop := dropWhile_comma_append (c :: f')
            (commaJoin ((g :: rest).map escapeChars)) hnc
          have htake := takeWhile_comma_append (c :: f')
            (commaJoin ((g :: rest).map escapeChars)) hnc
          rw [List.cons_append] at hdrop htake
          rw [hdrop]
          show (if (',' : Char) = ',' then
              (c :: (f' ++ ',' :: commaJoin ((g :: rest).map escapeChars))).takeWhile
                  (fun x => x ≠ ',')
                :: parseCsvFieldsAux fu (commaJoin ((g :: rest).map escapeChars))
            else [(c :: (f' ++ ',' :: commaJoin ((g :: rest).map escapeChars))).takeWhile
                (fun x => x ≠ ',')]) = (c :: f') :: g :: rest
          rw [if_pos rfl, htake, ih fu hfu (by simp)]

theorem parseCsvRow_csvRow (job : JobData) :
    parseCsvRow (csvRow job) = recordValues (jobDataToCsvRecord job) := by
  have h1 : ((recordValues (jobDataToCsvRecord job)).map csvEscapeField).map String.data
      = ((recordValues (jobDataToCsvRecord job)).map String.data).map escapeChars := by
    simp only [List.map_map]
    rfl
  have hne : (recordValues (jobDataToCsvRecord job)).map String.data ≠ [] := by
    simp [recordValues]
  have hlen : ((recordValues (jobDataToCsvRecord job)).map String.data).length
      ≤ (commaJoin (((recordValues (jobDataToCsvRecord job)).map String.data).map
          escapeChars)).length + 1 := by
    simpa using commaJoin_length_ge
      (((recordValues (jobDataToCsvRecord job)).map String.data).map escapeChars)
  show (parseCsvFieldsAux
      ((commaJoin (((recordValues (jobDataToCsvRecord job)).map csvEscapeField).map
        String.data)).length + 1)
      (commaJoin (((recordValues (jobDataToCsvRecord job)).map csvEscapeField).map
        String.data))).map (fun l => (⟨l⟩ : String))
    = recordValues (jobDataToCsvRecord job)
  rw [h1]
  rw [parseAux_commaJoin ((recordValues (jobDataToCsvRecord job)).map String.data) _ hlen hne]
  rw [List.map_map]
  exact List.map_id' _

/-- C1 (corrected), counterexample to the claim as stated: a listing whose
description contains a comma, a double quote and a newline does NOT come back
unchanged from serialize-then-parse, because `jobDataToCsvRecord` rewrites
the description (newlines to spaces, commas to semicolons) before the CSV
quoting is applied. -/
theorem csv_roundtrip_counterexample :
    (strIncludes csvCexJob.description "," &&
     strIncludes csvCexJob.description "\"" &&
     strIncludes csvCexJob.description "\n") = true ∧
    (parseCsvRow (csvRow csvCexJob)).get? 1 = some "a;b\"c d" ∧
    (parseCsvRow (csvRow csvCexJob)).get? 1 ≠ some csvCexJob.description := by
  refine ⟨by decide, by decide, by decide⟩

/-- C1 (amended): serializing a listing to a CSV row and parsing the row
back yields every field unchanged except the description, which comes back
with each newline replaced by a space and each comma by a semicolon (the
rewrite `jobDataToCsvRecord` applies before quoting); in particular the
description round-trips only up to that rewrite. -/
theorem csv_roundtrip_description (job : JobData) :
    parseCsvRow (csvRow job) = recordValues (jobDataToCsvRecord job) ∧
    (parseCsvRow (csvRow job)).get? 1 = some (csvDescription job.description) := by
  refine ⟨parseCsvRow_csvRow job, ?_⟩
  rw [parseCsvRow_csvRow job]
  simp [recordValues, jobDataToCsvRecord]

/-! ### Retry helper (claims C3 and C10) -/

theorem retryGo_fail_then_ok (op : Nat → Except E A) (maxAttempts : Int) (v : A) :
    ∀ (k a delay fuel : Nat),
      (∀ i, a ≤ i → i < a + k → ∃ err, op i = Except.error err) →
      op (a + k) = Except.ok v →
      ((a + k : Nat) : Int) ≤ maxAttempts →
      k + 1 ≤ fuel →
      retryGo op maxAttempts a delay fuel =
        ⟨Except.ok v, k + 1, delay * (2 ^ k - 1)⟩ := by
  intro k
  induction k with
  | zero =>
    intro a delay fuel _ hok _ hfuel
    obtain ⟨fu, rfl⟩ : ∃ fu, fuel = fu + 1 := by
      cases fuel with
      | zero => simp at hfuel
      | succ n => exact ⟨n, rfl⟩
    rw [retryGo]
    simp only [Nat.add_zero] at hok
    rw [hok]
    simp
  | succ k ih =>
    intro a delay fuel hfail hok hle hfuel
    obtain ⟨fu, rfl⟩ : ∃ fu, fuel = fu + 1 := by
      cases fuel with
      | zero => simp at hfuel
      | succ n => exact ⟨n, rfl⟩
    obtain ⟨err, herr⟩ := hfail a (Nat.le_refl a) (by omega)
    rw [retryGo, herr]
    have hne : ¬ ((a : Int) = maxAttempts) := by
      have : ((a : Nat) : Int) < ((a + (k + 1) : Nat) : Int) := by
        exact_mod_cast Nat.lt_add_of_pos_right (Nat.succ_pos k)
      omega
    have hrec := ih (a + 1) (delay * 2) fu
      (fun i h1 h2 => hfail i (by omega) (by omega))
      (by rw [show a + 1 + k = a + (k + 1) by omega]; exact hok)
      (by rw [show a + 1 + k = a + (k + 1) by omega]; exact hle)
      (by omega)
    have h2 : 1 ≤ 2 ^ k := Nat.one_le_two_pow
    have harith : delay * 2 * (2 ^ k - 1) + delay = delay * (2 ^ (k + 1) - 1) := by
      have hp : 2 ^ (k + 1) = 2 * 2 ^ k := by rw [pow_succ]; ring
      rw [Nat.mul_assoc]
      rw [show delay * (2 * (2 ^ k - 1)) + delay = delay * (2 * (2 ^ k - 1) + 1) from
        (Nat.mul_succ delay (2 * (2 ^ k - 1))).symm]
      congr 1
      omega
    simp only [if_neg hne, hrec]
    simp [harith]

theorem retryGo_all_fail (op : Nat → Except E A) (maxAttempts : Int) (e : Nat → E) :
    ∀ (n a delay : Nat), 1 ≤ n →
      (∀ i, a ≤ i → i < a + n → op i = Except.error (e i)) →
      ((a + n - 1 : Nat) : Int) = maxAttempts →
      (retryGo op maxAttempts a delay n).result = Except.error (some (e (a + n - 1))) ∧
      (retryGo op maxAttempts a delay n).calls = n := by
  intro n
  induction n with
  | zero => intro a delay h; simp at h
  | succ m ih =>
    intro a delay _ hfail hlast
    by_cases hm : m = 0
    · subst hm
      have ha : op a = Except.error (e a) := hfail a (Nat.le_refl a) (by omega)
      have heq : (a : Int) = maxAttempts := by
        simpa using hlast
      rw [retryGo, ha]
      have hidx : a + (0 + 1) - 1 = a := by omega
      rw [hidx]
      simp [if_pos heq]
    · have hm1 : 1 ≤ m := Nat.one_le_iff_ne_zero.mpr hm
      have ha : op a = Except.error (e a) := hfail a (Nat.le_refl a) (by omega)
      have hne : ¬ ((a : Int) = maxAttempts) := by
        have hlt : ((a : Nat) : Int) < ((a + (m + 1) - 1 : Nat) : Int) := by
          exact_mod_cast (by omega : a < a + (m + 1) - 1)
        omega
      have hrec := ih (a + 1) (delay * 2) hm1
        (fun i h1 h2 => hfail i (by omega) (by omega))
        (by rw [show a + 1 + m - 1 = a + (m + 1) - 1 by omega]; exact hlast)
      have hidx : a + 1 + m - 1 = a + (m + 1) - 1 := by omega
      rw [retryGo, ha]
      rw [hidx] at hrec
      refine ⟨?_, ?_⟩
      · simp only [if_neg hne]
        simp [hrec.1]
      · simp only [if_neg hne]
        simp [hrec.2]

/-- C3: the retry helper.  First part: an operation failing exactly `k`
times then succeeding, with `k < maxAttempts`, is invoked exactly `k + 1`
times, returns the successful value, and the cumulative wait before success
is `baseDelay * (2 ^ k - 1)` (the delay doubles after each failure).  Second
part: an operation failing on all `maxAttempts` attempts is invoked exactly
`maxAttempts` times and the last attempt's error is re-raised. -/
theorem retry_spec (op : Nat → Except E A) (e : Nat → E) (v : A)
    (maxAttempts : Int) (baseDelay : Nat) (k : Nat) :
    ((∀ i, 1 ≤ i → i ≤ k → op i = Except.error (e i)) →
      op (k + 1) = Except.ok v →
      (k : Int) < maxAttempts →
      retry op maxAttempts baseDelay =
        ⟨Except.ok v, k + 1, baseDelay * (2 ^ k - 1)⟩) ∧
    ((∀ i : Nat, 1 ≤ i → (i : Int) ≤ maxAttempts → op i = Except.error (e i)) →
      1 ≤ maxAttempts →
      (retry op maxAttempts baseDelay).result
          = Except.error (some (e maxAttempts.toNat)) ∧
      (retry op maxAttempts baseDelay).calls = maxAttempts.toNat) := by
  constructor
  · intro hfail hok hlt
    unfold retry
    have h1k : ((1 + k : Nat) : Int) ≤ maxAttempts := by
      push_cast
      omega
    have hfuel : k + 1 ≤ maxAttempts.toNat := by
      omega
    have := retryGo_fail_then_ok op maxAttempts v k 1 baseDelay maxAttempts.toNat
      (fun i h1 h2 => ⟨e i, hfail i h1 (by omega)⟩)
      (by rw [show 1 + k = k + 1 by omega]; exact hok)
      h1k hfuel
    rw [this]
  · intro hfail hpos
    unfold retry
    have hn1 : 1 ≤ maxAttempts.toNat := by omega
    have hcast : ((maxAttempts.toNat : Nat) : Int) = maxAttempts :=
      Int.toNat_of_nonneg (by omega)
    have := retryGo_all_fail op maxAttempts e maxAttempts.toNat 1 baseDelay hn1
      (fun i h1 h2 => hfail i h1 (by omega))
      (by rw [show 1 + maxAttempts.toNat - 1 = maxAttempts.toNat by omega]; exact hcast)
    rw [show 1 + maxAttempts.toNat - 1 = maxAttempts.toNat by omega] at this
    exact this

/-- Witness for C3: with `wOp` (fails on attempts 1 and 2, succeeds with 42
on attempt 3), `maxAttempts = 5` and `baseDelay = 100`, retry returns 42
after 3 invocations having waited 100 + 200 = 300; with `wOpAllFail` and
`maxAttempts = 3`, all 3 attempts run and the last error is re-raised. -/
theorem retry_spec_witness :
    retry wOp 5 100 = ⟨Except.ok 42, 3, 300⟩ ∧
    (retry wOpAllFail 3 100).result = Except.error (some ("fail " ++ Nat.repr 3)) ∧
    (retry wOpAllFail 3 100).calls = 3 := by
  have h1 := (retry_spec wOp (fun i => "fail " ++ Nat.repr i) 42 5 100 2).1
    (fun i hi1 hi2 => by
      have : i = 1 ∨ i = 2 := by omega
      rcases this with h | h <;> subst h <;> rfl)
    rfl (by decide)
  have h2 := (retry_spec wOpAllFail (fun i => "fail " ++ Nat.repr i) 0 3 100 0).2
    (fun i _ _ => rfl) (by decide)
  refine ⟨?_, ?_, ?_⟩
  · simpa using h1
  · simpa using h2.1
  · simpa using h2.2

/-- C10: for every `maxAttempts ≤ 0`, retry never invokes the operation and
does not return normally: it throws the uninitialized `lastError`
(`Except.error none` in the embedding), so the helper's contract needs the
precondition `maxAttempts ≥ 1`. -/
theorem retry_nonpositive_attempts (op : Nat → Except E A) (baseDelay : Nat)
    (maxAttempts : Int) (h : maxAttempts ≤ 0) :
    retry op maxAttempts baseDelay = ⟨Except.error none, 0, 0⟩ := by
  unfold retry
  rw [show maxAttempts.toNat = 0 from Int.toNat_of_nonpos h]
  rfl

/-- Witness for C10 at `maxAttempts = 0`. -/
theorem retry_nonpositive_attempts_witness :
    retry wOp 0 100 = ⟨Except.error none, 0, 0⟩ :=
  retry_nonpositive_attempts wOp 100 0 (by decide)

/-! ### Orchestrator fault isolation (claim C2) -/

/-- C2: `scrapeFromMultiplePlatforms` returns exactly one result per
requested platform, in the requested order (it is a total function into a
plain list, so no exception reaches the caller).  Per position: a missing
adapter yields a failure entry for that platform; an adapter whose `scrape`
throws yields a failure entry capturing the message (with the search URL as
`searchQuery`); a successful adapter's result is passed through unchanged.
Every other platform's entry is computed independently from its own
adapter. -/
theorem scrapeFromMultiplePlatforms_isolation (reg : Registry)
    (platforms : List String) (filters : SearchFilters) (now : Nat) :
    (scrapeFromMultiplePlatforms reg platforms filters now).length
      = platforms.length ∧
    ∀ i : Nat, ∀ p : String, platforms[i]? = some p →
      ∃ r, (scrapeFromMultiplePlatforms reg platforms filters now)[i]? = some r ∧
        (lookupAdapter reg p = none →
          r = { jobs := [], totalFound := 0, platform := p, searchQuery := "N/A",
                timestamp := now, success := false,
                errors := some ["Adapter for platform \"" ++ p ++ "\" is not available"] }) ∧
        (∀ adapter msg, lookupAdapter reg p = some adapter →
          adapter.scrape filters = Except.error msg →
          r = { jobs := [], totalFound := 0, platform := p,
                searchQuery := adapter.buildSearchUrl filters,
                timestamp := now, success := false, errors := some [msg] }) ∧
        (∀ adapter res, lookupAdapter reg p = some adapter →
          adapter.scrape filters = Except.ok res → r = res) := by
  constructor
  · simp [scrapeFromMultiplePlatforms]
  · intro i p hp
    have hmap : (scrapeFromMultiplePlatforms reg platforms filters now)[i]? =
        some (match scrapeFromPlatform reg p filters now with
          | Except.ok r => r
          | Except.error e =>
            { jobs := [], totalFound := 0, platform := p, searchQuery := "N/A",
              timestamp := now, success := false, errors := some [e] }) := by
      simp [scrapeFromMultiplePlatforms, List.getElem?_map, hp]
    cases hA : lookupAdapter reg p with
    | none =>
      refine ⟨_, hmap, ?_, ?_, ?_⟩
      · intro _
        simp [scrapeFromPlatform, hA]
      · intro adapter msg hA2 _
        exact absurd hA2 (by simp)
      · intro adapter res hA2 _
        exact absurd hA2 (by simp)
    | some adapter =>
      cases hE : adapter.scrape filters with
      | error msg =>
        refine ⟨_, hmap, ?_, ?_, ?_⟩
        · intro h
          exact absurd h (by simp)
        · intro adapter2 msg2 hA2 hE2
          injection hA2 with hA2
          subst hA2
          rw [hE] at hE2
          injection hE2 with hE2
          subst hE2
          simp [scrapeFromPlatform, hA, hE]
        · intro adapter2 res hA2 hE2
          injection hA2 with hA2
          subst hA2
          rw [hE] at hE2
          exact absurd hE2 (by simp)
      | ok res =>
        refine ⟨_, hmap, ?_, ?_, ?_⟩
        · intro h
          exact absurd h (by simp)
        · intro adapter2 msg2 hA2 hE2
          injection hA2 with hA2
          subst hA2
          rw [hE] at hE2
          exact absurd hE2 (by simp)
        · intro adapter2 res2 hA2 hE2
          injection hA2 with hA2
          subst hA2
          rw [hE] at hE2
          injection hE2 with hE2
          subst hE2
          simp [scrapeFromPlatform, hA, hE]

/-- Witness for C2, mirroring the spec scenario: platform `a` raises,
platform `b` succeeds, platform `c` is not registered; all three entries are
present, in order, each with its own outcome. -/
theorem scrapeFromMultiplePlatforms_isolation_witness :
    (scrapeFromMultiplePlatforms wRegistry ["a", "b", "c"] {} 0).length = 3 ∧
    ∃ r0 r1 r2,
      (scrapeFromMultiplePlatforms wRegistry ["a", "b", "c"] {} 0)[0]? = some r0 ∧
      (scrapeFromMultiplePlatforms wRegistry ["a", "b", "c"] {} 0)[1]? = some r1 ∧
      (scrapeFromMultiplePlatforms wRegistry ["a", "b", "c"] {} 0)[2]? = some r2 ∧
      r0.success = false ∧ r0.errors = some ["network down"] ∧
      r1 = okResult ∧ r2.success = false := by
  have H := scrapeFromMultiplePlatforms_isolation wRegistry ["a", "b", "c"] {} 0
  obtain ⟨ra, hra, _, herra, _⟩ := H.2 0 "a" rfl
  obtain ⟨rb, hrb, _, _, hokb⟩ := H.2 1 "b" rfl
  obtain ⟨rc, hrc, hnonec, _, _⟩ := H.2 2 "c" rfl
  have hra2 := herra failingAdapter "network down" (by rfl) (by rfl)
  have hrb2 := hokb okAdapter okResult (by rfl) (by rfl)
  have hrc2 := hnonec (by rfl)
  refine ⟨H.1, ra, rb, rc, hra, hrb, hrc, ?_, ?_, hrb2, ?_⟩
  · rw [hra2]
  · rw [hra2]
  · rw [hrc2]

/-! ### maxJobs cap (claim C4) -/

/-- C4: `extractJobs` returns at most `maxJobs` listings, and what it
returns is exactly the first listings of the uncapped tier cascade in
discovery order: appending the dropped suffix of the cascade recovers the
cascade, and the length is the minimum of `maxJobs` and the number of
candidates (so later elements are dropped, never sampled). -/
theorem extractJobs_cap (page : Page) (maxJobs : Nat) :
    (extractJobs page maxJobs).length ≤ maxJobs ∧
    extractJobs page maxJobs ++ (extractedCandidates page).drop maxJobs
      = extractedCandidates page ∧
    (extractJobs page maxJobs).length
      = min maxJobs (extractedCandidates page).length := by
  refine ⟨?_, ?_, ?_⟩
  · simp [extractJobs]
  · exact List.take_append_drop maxJobs (extractedCandidates page)
  · simp [extractJobs, List.length_take]

/-! ### Platform stamping (claim C5) -/

/-- C5 (corrected), counterexample to the claim as stated: the field
extractor does set the `platform` field — `extractJobFromElement` returns
`platform = "freelancer"`, not an unset/empty value, for any element. -/
theorem extractor_sets_platform_counterexample :
    (extractJobFromElement plainElem).platform = "freelancer" ∧
    (extractJobFromElement plainElem).platform ≠ "" := by
  exact ⟨rfl, by decide⟩

/-- C5 (amended): the extractor always sets `platform` to the constant
`"freelancer"`; `scrape` then stamps every extracted listing with the
adapter's platform name after extraction, and between extraction and return
no field other than `platform` is changed. -/
theorem platform_stamping (ops : AdapterOps) (name : String)
    (filters : SearchFilters) (now : Nat) (jobs : List JobData)
    (hinit : ops.initStep = Except.ok ())
    (hnav : ops.navigateToJobsPage filters = Except.ok ())
    (hext : ops.extractJobs = Except.ok jobs) :
    (∀ e : JobElement, (extractJobFromElement e).platform = "freelancer") ∧
    (scrape ops name filters now).jobs.length = jobs.length ∧
    ∀ i : Nat, ∀ j, jobs[i]? = some j →
      ∃ j', (scrape ops name filters now).jobs[i]? = some j' ∧
        j'.platform = name ∧ j'.title = j.title ∧ j'.description = j.description ∧
        j'.budget = j.budget ∧ j'.hourlyRate = j.hourlyRate ∧
        j'.skills = j.skills ∧ j'.postedTime = j.postedTime ∧
        j'.clientInfo = j.clientInfo ∧ j'.jobUrl = j.jobUrl ∧
        j'.jobType = j.jobType ∧ j'.duration = j.duration ∧
        j'.experienceLevel = j.experienceLevel := by
  have hdo : (do
      ops.initStep
      ops.navigateToJobsPage filters
      ops.extractJobs : Except String (List JobData)) = Except.ok jobs := by
    rw [hinit, hnav, hext]
    rfl
  have hscr : scrape ops name filters now =
      { jobs := jobs.map (fun job => { job with platform := name })
        totalFound := (jobs.map (fun job => { job with platform := name })).length
        platform := name
        searchQuery := buildSearchQuery filters
        timestamp := now
        success := true } := by
    unfold scrape
    rw [hdo]
  refine ⟨fun e => rfl, ?_, ?_⟩
  · rw [hscr]; simp
  · intro i j hj
    refine ⟨{ j with platform := name }, ?_, rfl, rfl, rfl, rfl, rfl, rfl, rfl,
      rfl, rfl, rfl, rfl, rfl⟩
    rw [hscr]
    simp [List.getElem?_map, hj]

/-- Witness for C5: with healthy adapter operations returning one job whose
own `platform` field is `"other"`, `scrape` stamps it to the adapter's name
while keeping every other field. -/
theorem platform_stamping_witness :
    (extractJobFromElement plainElem).platform = "freelancer" ∧
    (scrape wOps "freelancer" {} 0).jobs.length = 1 ∧
    ∃ j', (scrape wOps "freelancer" {} 0).jobs[0]? = some j' ∧
      j'.platform = "freelancer" ∧ j'.title = "W" ∧ j'.skills = ["React", "AWS"] := by
  have H := platform_stamping wOps "freelancer" {} 0 [wJob] rfl rfl rfl
  obtain ⟨j', hj', hplat, htitle, _, _, _, hskills, _⟩ := H.2.2 0 wJob rfl
  exact ⟨H.1 plainElem, H.2.1, j', hj', hplat, htitle, hskills⟩

/-! ### Client-info scenario (claim C6) -/

/-- C6 (corrected), counterexample to the claim as stated: for the element
whose text is `"Budget: $500 - $800, 3 reviews, Payment verified"`, the
extracted `clientInfo` is exactly `"3 review"` — the client-pattern loop
breaks after the first matching pattern family, and the regex alternation
`(?:review|reviews)` matches the shorter alternative — so `clientInfo`
contains neither the full review count `"3 reviews"` nor the verification
phrase `"Payment verified"`. -/
theorem client_info_scenario_counterexample :
    (extractJobFromElement clientScenarioElem).clientInfo = "3 review" ∧
    strIncludes (extractJobFromElement clientScenarioElem).clientInfo
      "Payment verified" = false ∧
    strIncludes (extractJobFromElement clientScenarioElem).clientInfo
      "3 reviews" = false := by
  refine ⟨by decide, by decide, by decide⟩

/-- C6 (amended): for the scenario element, the extracted `budget` is the
`$`-prefixed `"$500 - $800, "` (the greedy `[\d,]+` keeps the trailing comma
and `\s*` the space), `jobType` is `"Fixed Price"`, and `clientInfo` is
`"3 review"`: it contains the review count digit but, because only the first
matching client pattern contributes, not the verification phrase. -/
theorem client_info_scenario :
    (extractJobFromElement clientScenarioElem).budget = "$500 - $800, " ∧
    (extractJobFromElement clientScenarioElem).budget.data.head? = some '$' ∧
    (extractJobFromElement clientScenarioElem).jobType = "Fixed Price" ∧
    (extractJobFromElement clientScenarioElem).clientInfo = "3 review" ∧
    strIncludes (extractJobFromElement clientScenarioElem).clientInfo "3" = true := by
  refine ⟨by decide, by decide, by decide, by decide, by decide⟩

/-! ### Skills deduplication (claim C7) -/

theorem mem_jsSetDedupAux (l : List String) :
    ∀ (seen : List String) (x : String),
      x ∈ jsSetDedupAux seen l ↔ x ∈ l ∧ x ∉ seen := by
  induction l with
  | nil => intro seen x; simp [jsSetDedupAux]
  | cons y ys ih =>
    intro seen x
    by_cases hy : y ∈ seen
    · rw [jsSetDedupAux, if_pos hy, ih]
      constructor
      · rintro ⟨hx, hnx⟩
        exact ⟨List.mem_cons_of_mem _ hx, hnx⟩
      · rintro ⟨hx, hnx⟩
        rcases List.mem_cons.mp hx with rfl | hx
        · exact absurd hy hnx
        · exact ⟨hx, hnx⟩
    · rw [jsSetDedupAux, if_neg hy]
      constructor
      · intro hx
        rcases List.mem_cons.mp hx with rfl | hx
        · exact ⟨List.mem_cons_self _ _, hy⟩
        · obtain ⟨h1, h2⟩ := (ih (y :: seen) x).mp hx
          refine ⟨List.mem_cons_of_mem _ h1, ?_⟩
          intro hs
          exact h2 (List.mem_cons_of_mem _ hs)
      · rintro ⟨hx, hnx⟩
        rcases List.mem_cons.mp hx with rfl | hx
        · exact List.mem_cons_self _ _
        · by_cases hxy : x = y
          · subst hxy
            exact List.mem_cons_self _ _
          · refine List.mem_cons_of_mem _ ((ih (y :: seen) x).mpr ⟨hx, ?_⟩)
            intro hs
            rcases List.mem_cons.mp hs with h | h
            · exact hxy h
            · exact hnx h

theorem jsSetDedupAux_nodup (l : List String) :
    ∀ seen : List String, (jsSetDedupAux seen l).Nodup := by
  induction l with
  | nil => intro seen; simp [jsSetDedupAux]
  | cons y ys ih =>
    intro seen
    by_cases hy : y ∈ seen
    · rw [jsSetDedupAux, if_pos hy]
      exact ih seen
    · rw [jsSetDedupAux, if_neg hy]
      refine List.nodup_cons.mpr ⟨?_, ih (y :: seen)⟩
      intro hmem
      exact ((mem_jsSetDedupAux ys (y :: seen) y).mp hmem).2 (List.mem_cons_self _ _)

/-- C7: for every input text, the skills list produced by the extractor has
no duplicate entries, and its members are exactly the union of the (trimmed)
matches across the keyword-family patterns. -/
theorem extractSkillsFromText_spec (text : String) :
    (extractSkillsFromText text).Nodup ∧
    ∀ s, s ∈ extractSkillsFromText text ↔
      ∃ fam, fam ∈ skillFamilies ∧ s ∈ (kwMatches fam text).map jsTrim := by
  constructor
  · exact jsSetDedupAux_nodup (skillMatchesRaw text) []
  · intro s
    rw [extractSkillsFromText, jsSetDedup, mem_jsSetDedupAux]
    simp [skillMatchesRaw, List.mem_flatMap]

/-! ### buildSearchUrl filter handling (claim C8) -/

/-- C8: `buildSearchUrl` is a pure string construction (determinism is
inherent to the functional embedding).  A category outside the supported
list is silently ignored: the URL equals the one built with no category at
all.  The tags list is used as the keyword parameter only when no truthy
keyword is given: with a keyword the URL is independent of tags, and without
one a nonempty tags list is appended as the `keyword` parameter.  `sortBy`
absent or `"relevance"` contributes no `sort` parameter. -/
theorem buildSearchUrl_spec (f : SearchFilters) :
    (∀ c, f.category = some c → c ∉ supportedCategories →
      buildSearchUrl f = buildSearchUrl { f with category := none }) ∧
    (jsTruthyS f.keyword = true →
      ∀ ts, buildSearchUrl { f with tags := ts }
        = buildSearchUrl { f with tags := none }) ∧
    (jsTruthyS f.keyword = false →
      ∀ ts : List String, ts ≠ [] →
        ("keyword", String.intercalate " " ts) ∈ searchParams { f with tags := some ts }) ∧
    ((f.sortBy = none ∨ f.sortBy = some "relevance") →
      "sort" ∉ (searchParams f).map Prod.fst) := by
  refine ⟨?_, ?_, ?_, ?_⟩
  · intro c hc hns
    simp [buildSearchUrl, searchParams, jsTruthyS, hc, hns]
  · intro hkw ts
    simp [buildSearchUrl, searchParams, hkw]
  · intro hkw ts hts
    have hlen : 0 < ts.length := List.length_pos.mpr hts
    simp [searchParams, hkw, hlen]
  · intro hs hmem
    rcases hs with h | h <;>
      (simp only [searchParams, h, List.map_append, List.mem_append] at hmem
       rcases hmem with h1 | h1 | h1 | h1 | h1 | h1 <;>
         (revert h1
          split_ifs <;> simp_all [jsTruthyS]))

/-- Witness for C8: an unknown category is dropped from the URL; with a
keyword present the tags do not change the URL; with no keyword the tags
become the keyword parameter; `sortBy = "relevance"` adds no sort
parameter. -/
theorem buildSearchUrl_spec_witness :
    buildSearchUrl { category := some "nonexistent", keyword := some "rust" }
      = buildSearchUrl { category := none, keyword := some "rust" } ∧
    buildSearchUrl { keyword := some "rust", tags := some ["a", "b"] }
      = buildSearchUrl { keyword := some "rust", tags := none } ∧
    ("keyword", String.intercalate " " ["web", "api"])
      ∈ searchParams { tags := some ["web", "api"] } ∧
    "sort" ∉ (searchParams { keyword := some "x", sortBy := some "relevance" }).map
      Prod.fst := by
  refine ⟨?_, ?_, ?_, ?_⟩
  · exact (buildSearchUrl_spec
      { category := some "nonexistent", keyword := some "rust" }).1
      "nonexistent" rfl (by decide)
  · exact (buildSearchUrl_spec { keyword := some "rust" }).2.1 (by decide)
      (some ["a", "b"])
  · exact (buildSearchUrl_spec { tags := some ["web", "api"] }).2.2.1 (by decide)
      ["web", "api"] (by decide)
  · exact (buildSearchUrl_spec { keyword := some "x", sortBy := some "relevance" }).2.2.2
      (Or.inr rfl)

/-! ### getStatistics aggregation (claim C9) -/

theorem bumpSkill_fst (s : String) (p : String × Nat) :
    (if p.1 = s then (p.1, p.2 + 1) else p).1 = p.1 := by
  split <;> rfl

theorem bumpSkill_good (freq : List (String × Nat)) (processed : List String)
    (s : String) (h : goodHisto freq processed) :
    goodHisto (bumpSkill freq s) (processed ++ [s]) := by
  obtain ⟨h1, h2, h3⟩ := h
  by_cases hk : freq.any (fun p => p.1 = s) = true
  · have hupd : bumpSkill freq s = freq.map (fun p => if p.1 = s then (p.1, p.2 + 1) else p) := by
      rw [bumpSkill, if_pos hk]
    refine ⟨?_, ?_, ?_⟩
    · intro p' hp'
      rw [hupd] at hp'
      obtain ⟨p, hp, rfl⟩ := List.mem_map.mp hp'
      by_cases hps : p.1 = s
      · rw [if_pos hps]
        simp only [List.count_append, hps]
        have hcount := h1 p hp
        rw [hps] at hcount
        rw [← hcount]
        simp
      · rw [if_neg hps]
        simp only [List.count_append]
        rw [← h1 p hp]
        have : [s].count p.1 = 0 := by
          simp [List.count_singleton]
          intro hc
          exact hps hc.symm
        omega
    · intro s' hs'
      rcases List.mem_append.mp hs' with hs' | hs'
      · obtain ⟨p, hp, hps⟩ := h2 s' hs'
        refine ⟨(if p.1 = s then (p.1, p.2 + 1) else p), ?_, ?_⟩
        · rw [hupd]; exact List.mem_map_of_mem _ hp
        · rw [bumpSkill_fst]; exact hps
      · have hs2 : s' = s := by simpa using hs'
        subst hs2
        obtain ⟨p, hp, hdec⟩ := List.any_eq_true.mp hk
        have hps : p.1 = s' := of_decide_eq_true hdec
        refine ⟨(if p.1 = s' then (p.1, p.2 + 1) else p), ?_, ?_⟩
        · rw [hupd]; exact List.mem_map_of_mem _ hp
        · rw [bumpSkill_fst]; exact hps
    · rw [hupd]
      have : (freq.map (fun p => if p.1 = s then (p.1, p.2 + 1) else p)).map Prod.fst
          = freq.map Prod.fst := by
        rw [List.map_map]
        exact List.map_congr_left (fun p _ => bumpSkill_fst s p)
      rw [this]
      exact h3
  · have hupd : bumpSkill freq s = freq ++ [(s, 1)] := by
      rw [bumpSkill, if_neg hk]
    have hkey : ∀ p ∈ freq, p.1 ≠ s := by
      intro p hp hps
      exact hk (List.any_eq_true.mpr ⟨p, hp, by simp [hps]⟩)
    have hsnew : s ∉ processed := by
      intro hs
      obtain ⟨p, hp, hps⟩ := h2 s hs
      exact hkey p hp hps
    refine ⟨?_, ?_, ?_⟩
    · intro p' hp'
      rw [hupd] at hp'
      rcases List.mem_append.mp hp' with hp' | hp'
      · have hne : p'.1 ≠ s := hkey p' hp'
        simp only [List.count_append]
        rw [← h1 p' hp']
        have : [s].count p'.1 = 0 := by
          simp [List.count_singleton]
          intro hc
          exact hne hc.symm
        omega
      · have : p' = (s, 1) := by simpa using hp'
        subst this
        simp only [List.count_append]
        have hz : processed.count s = 0 := List.count_eq_zero.mpr hsnew
        simp [hz]
    · intro s' hs'
      rcases List.mem_append.mp hs' with hs' | hs'
      · obtain ⟨p, hp, hps⟩ := h2 s' hs'
        exact ⟨p, by rw [hupd]; exact List.mem_append_left _ hp, hps⟩
      · have : s' = s := by simpa using hs'
        subst this
        exact ⟨(s', 1), by rw [hupd]; simp, rfl⟩
    · rw [hupd]
      rw [List.map_append]
      refine List.Nodup.append h3 (by simp) ?_
      intro a ha hb
      have hbs : a = s := by simpa using hb
      subst hbs
      obtain ⟨p, hp, rfl⟩ := List.mem_map.mp ha
      exact hkey p hp rfl

theorem bumpFold_good (skills : List String) :
    ∀ (freq : List (String × Nat)) (processed : List String),
      goodHisto freq processed →
      goodHisto (skills.foldl bumpSkill freq) (processed ++ skills) := by
  induction skills with
  | nil => intro freq processed h; simpa using h
  | cons s rest ih =>
    intro freq processed h
    have := ih (bumpSkill freq s) (processed ++ [s]) (bumpSkill_good freq processed s h)
    simpa [List.append_assoc] using this

theorem jobsFold_good (jobs : List JobData) :
    ∀ (freq : List (String × Nat)) (processed : List String),
      goodHisto freq processed →
      goodHisto (jobs.foldl (fun acc job => job.skills.foldl bumpSkill acc) freq)
        (processed ++ (jobs.map (fun j => j.skills)).flatten) := by
  induction jobs with
  | nil => intro freq processed h; simpa using h
  | cons j rest ih =>
    intro freq processed h
    have := ih (j.skills.foldl bumpSkill freq) (processed ++ j.skills)
      (bumpFold_good j.skills freq processed h)
    simpa [List.append_assoc] using this

theorem skillFrequency_good (results : List ScrapingResult) :
    goodHisto (skillFrequency results) (allSkills results) := by
  suffices h : ∀ (rs : List ScrapingResult) (freq : List (String × Nat))
      (processed : List String), goodHisto freq processed →
      goodHisto (rs.foldl
        (fun acc r => r.jobs.foldl (fun acc2 job => job.skills.foldl bumpSkill acc2) acc)
        freq) (processed ++ allSkills rs) by
    have := h results [] [] ⟨by simp, by simp, by simp⟩
    simpa [skillFrequency] using this
  intro rs
  induction rs with
  | nil => intro freq processed h; simpa [allSkills] using h
  | cons r rest ih =>
    intro freq processed h
    have := ih (r.jobs.foldl (fun acc2 job => job.skills.foldl bumpSkill acc2) freq)
      (processed ++ (r.jobs.map (fun j => j.skills)).flatten)
      (jobsFold_good r.jobs freq processed h)
    simpa [allSkills, List.append_assoc] using this

theorem filter_insertDesc (x : String × Nat) (l : List (String × Nat)) (c : Nat) :
    (insertDesc x l).filter (fun p => p.2 = c)
      = if x.2 = c then x :: l.filter (fun p => p.2 = c)
        else l.filter (fun p => p.2 = c) := by
  induction l with
  | nil =>
    by_cases hx : x.2 = c
    · simp [insertDesc, List.filter, hx]
    · simp [insertDesc, List.filter, hx]
  | cons y ys ih =>
    by_cases hgt : y.2 > x.2
    · rw [insertDesc, if_pos hgt]
      by_cases hx : x.2 = c <;> by_cases hy : y.2 = c
      · exfalso; omega
      · rw [if_pos hx]
        rw [List.filter_cons_of_neg (by simpa using hy)]
        rw [List.filter_cons_of_neg (by simpa using hy)]
        rw [ih, if_pos hx]
      · rw [if_neg hx]
        rw [List.filter_cons_of_pos (by simpa using hy)]
        rw [List.filter_cons_of_pos (by simpa using hy)]
        rw [ih, if_neg hx]
      · rw [if_neg hx]
        rw [List.filter_cons_of_neg (by simpa using hy)]
        rw [List.filter_cons_of_neg (by simpa using hy)]
        rw [ih, if_neg hx]
    · rw [insertDesc, if_neg hgt]
      by_cases hx : x.2 = c
      · rw [if_pos hx]
        rw [List.filter_cons_of_pos (by simpa using hx)]
      · rw [if_neg hx]
        rw [List.filter_cons_of_neg (by simpa using hx)]

theorem filter_sortByCountDesc (l : List (String × Nat)) (c : Nat) :
    (sortByCountDesc l).filter (fun p => p.2 = c) = l.filter (fun p => p.2 = c) := by
  induction l with
  | nil => rfl
  | cons x xs ih =>
    show (insertDesc x (sortByCountDesc xs)).filter (fun p => p.2 = c) = _
    rw [filter_insertDesc]
    by_cases hx : x.2 = c
    · rw [if_pos hx, ih, List.filter_cons_of_pos (by simpa using hx)]
    · rw [if_neg hx, ih, List.filter_cons_of_neg (by simpa using hx)]

theorem mem_sortByCountDesc (l : List (String × Nat)) (p : String × Nat) :
    p ∈ sortByCountDesc l ↔ p ∈ l := by
  constructor
  · intro h
    have : p ∈ (sortByCountDesc l).filter (fun q => q.2 = p.2) :=
      List.mem_filter.mpr ⟨h, by simp⟩
    rw [filter_sortByCountDesc] at this
    exact (List.mem_filter.mp this).1
  · intro h
    have : p ∈ l.filter (fun q => q.2 = p.2) :=
      List.mem_filter.mpr ⟨h, by simp⟩
    rw [← filter_sortByCountDesc] at this
    exact (List.mem_filter.mp this).1

theorem insertDesc_head (x : String × Nat) (l : List (String × Nat)) :
    (insertDesc x l).head? = some x ∨ (insertDesc x l).head? = l.head? := by
  cases l with
  | nil => left; rfl
  | cons y ys =>
    by_cases hgt : y.2 > x.2
    · right; rw [insertDesc, if_pos hgt]; rfl
    · left; rw [insertDesc, if_neg hgt]; rfl

theorem chain'_insertDesc (x : String × Nat) (l : List (String × Nat))
    (h : List.Chain' (fun a b => b.2 ≤ a.2) l) :
    List.Chain' (fun a b => b.2 ≤ a.2) (insertDesc x l) := by
  induction l with
  | nil => simp [insertDesc]
  | cons y ys ih =>
    by_cases hgt : y.2 > x.2
    · rw [insertDesc, if_pos hgt]
      obtain ⟨hhead, htail⟩ := List.chain'_cons'.mp h
      refine List.chain'_cons'.mpr ⟨?_, ih htail⟩
      intro z hz
      rcases insertDesc_head x ys with hh | hh
      · rw [hh] at hz
        injection hz with hz
        subst hz
        omega
      · rw [hh] at hz
        exact hhead z hz
    · rw [insertDesc, if_neg hgt]
      refine List.chain'_cons'.mpr ⟨?_, h⟩
      intro z hz
      injection hz with hz
      subst hz
      omega

theorem chain'_sortByCountDesc (l : List (String × Nat)) :
    List.Chain' (fun a b => b.2 ≤ a.2) (sortByCountDesc l) := by
  induction l with
  | nil => simp [sortByCountDesc]
  | cons x xs ih => exact chain'_insertDesc x (sortByCountDesc xs) ih

theorem head?_take (l : List (String × Nat)) (n : Nat) :
    (l.take n).head? = if n = 0 then none else l.head? := by
  cases l <;> cases n <;> simp

theorem chain'_take (l : List (String × Nat)) (n : Nat)
    (h : List.Chain' (fun a b => b.2 ≤ a.2) l) :
    List.Chain' (fun a b => b.2 ≤ a.2) (l.take n) := by
  induction l generalizing n with
  | nil => simp
  | cons y ys ih =>
    cases n with
    | zero => simp
    | succ m =>
      rw [List.take_succ_cons]
      obtain ⟨hhead, htail⟩ := List.chain'_cons'.mp h
      refine List.chain'_cons'.mpr ⟨?_, ih m htail⟩
      intro z hz
      rw [head?_take] at hz
      by_cases hm : m = 0
      · rw [if_pos hm] at hz; simp at hz
      · rw [if_neg hm] at hz
        exact hhead z hz

/-- C9: `getStatistics` returns the total listing count, the number of
successful platforms, per-platform listing and error counts, and a
skill-frequency histogram sorted by count descending and truncated to the
top 10.  Every reported count is the true number of occurrences, the
top-skill counts are non-increasing, and ties between equal counts keep the
first-encountered order: filtering the sorted histogram to any fixed count
gives exactly the entries of the insertion-ordered frequency list with that
count, unreordered (stability).  The input list is not modified (the
embedding is a pure function of it). -/
theorem getStatistics_spec (results : List ScrapingResult) :
    (getStatistics results).totalJobs
      = (results.map (fun r => r.jobs.length)).sum ∧
    (getStatistics results).totalPlatforms = results.length ∧
    (getStatistics results).successfulPlatforms
      = (results.filter (fun r => r.success)).length ∧
    (getStatistics results).failedPlatforms
      = results.length - (results.filter (fun r => r.success)).length ∧
    (getStatistics results).platformStats = results.map (fun r =>
      { platform := r.platform, jobs := r.jobs.length, success := r.success,
        errors := (r.errors.getD []).length }) ∧
    (getStatistics results).topSkills
      = (sortByCountDesc (skillFrequency results)).take 10 ∧
    (getStatistics results).topSkills.length ≤ 10 ∧
    List.Chain' (fun a b => b.2 ≤ a.2) (getStatistics results).topSkills ∧
    ((getStatistics results).topSkills.all
      (fun p => p.2 = countSkill results p.1)) = true ∧
    (∀ c : Nat, (sortByCountDesc (skillFrequency results)).filter (fun p => p.2 = c)
      = (skillFrequency results).filter (fun p => p.2 = c)) := by
  have htot : ∀ (l : List ScrapingResult) (init : Nat),
      l.foldl (fun sum r => sum + r.jobs.length) init
        = init + (l.map (fun r => r.jobs.length)).sum := by
    intro l
    induction l with
    | nil => intro init; simp
    | cons r rest ih => intro init; simp [ih]; omega
  refine ⟨?_, rfl, rfl, rfl, rfl, rfl, ?_, ?_, ?_, ?_⟩
  · simpa using htot results 0
  · simpa [getStatistics] using
      List.length_take_le 10 (sortByCountDesc (skillFrequency results))
  · exact chain'_take _ 10 (chain'_sortByCountDesc (skillFrequency results))
  · rw [List.all_eq_true]
    intro p hp
    have hp2 : p ∈ sortByCountDesc (skillFrequency results) := by
      have := List.take_subset 10 (sortByCountDesc (skillFrequency results))
      exact this hp
    have hp3 : p ∈ skillFrequency results := (mem_sortByCountDesc _ p).mp hp2
    have := (skillFrequency_good results).1 p hp3
    simpa [countSkill] using this
  · intro c
    exact filter_sortByCountDesc (skillFrequency results) c

end FindMyProject
